import Mathlib

/-!
Verification of the ukulele-reviews scraper (scraper.js / change-detector.js)
against its natural-language specification.  The JavaScript string and DOM
operations used by the scraper are modelled over `List Char` / `String`:
`toLowerCase`, `toUpperCase`, `trim`, `includes`, `startsWith`, `split`,
stable `sort`, and the two regular expressions used for date parsing.
-/

/-- JavaScript whitespace characters (the ones relevant to `\s`, `trim` and
`split(/\s+/)` on the scraper's ASCII inputs). -/
def jsWs (c : Char) : Bool :=
  c = ' ' || c = '\t' || c = '\n' || c = '\r' || c = '\x0b' || c = '\x0c'

/-- JS `String.prototype.toLowerCase` (ASCII range, which covers the scraper's data). -/
def jsToLower (s : String) : String :=
  String.mk (s.data.map Char.toLower)

/-- JS `String.prototype.toUpperCase` (ASCII range). -/
def jsToUpper (s : String) : String :=
  String.mk (s.data.map Char.toUpper)

/-- JS `String.prototype.trim`. -/
def jsTrim (s : String) : String :=
  String.mk (((s.data.dropWhile jsWs).reverse.dropWhile jsWs).reverse)

/-- `pat` is a prefix of `l` (character lists). -/
def startsWithList : List Char → List Char → Bool
  | [], _ => true
  | _ :: _, [] => false
  | a :: as, b :: bs => a = b && startsWithList as bs

/-- `pat` occurs as a contiguous sublist of `l`. -/
def includesList (pat : List Char) : List Char → Bool
  | [] => startsWithList pat []
  | l@(_ :: rest) => startsWithList pat l || includesList pat rest

/-- JS `String.prototype.includes`. -/
def jsIncludes (s pat : String) : Bool :=
  includesList pat.data s.data

/-- JS `String.prototype.startsWith`. -/
def jsStartsWith (s pat : String) : Bool :=
  startsWithList pat.data s.data

namespace UkuleleReviewsScraper

/-- `this.priceRanges` from the scraper constructor. -/
def priceRanges : List (String × String) :=
  [("Ukuleles £0 - £50", "<50"),
   ("Ukuleles £50- £100", "50-100"),
   ("Ukuleles £100 - £200", "100-200"),
   ("Ukuleles £200 - £500", "200-500"),
   ("Ukuleles £500 plus", "500+")]

/-- `getEdgeCaseSize(title)`: the single documented title exception. -/
def getEdgeCaseSize (title : String) : Option String :=
  let lowerTitle := jsTrim (jsToLower title)
  if lowerTitle = "enya euc-ms" then some "concert" else none

/-- `extractSize(title)`: size keyword containment in fixed priority order. -/
def extractSize (title : String) : String :=
  let lowerTitle := jsToLower title
  match getEdgeCaseSize title with
  | some s => s
  | none =>
    if jsIncludes lowerTitle "soprano" then "soprano"
    else if jsIncludes lowerTitle "sopranino" then "sopranino"
    else if jsIncludes lowerTitle "concert" then "concert"
    else if jsIncludes lowerTitle "tenor" then "tenor"
    else if jsIncludes lowerTitle "baritone" || jsIncludes lowerTitle "bari " then "baritone"
    else "other"

/-- `mapPriceRange(priceRangeText)`: strip `£`, lowercase, trim, then match
substrings in the source's fixed priority order. -/
def mapPriceRange (priceRangeText : String) : String :=
  let cleanText := jsTrim (jsToLower (String.mk (priceRangeText.data.filter (fun c => c ≠ '£'))))
  if jsIncludes cleanText "500" && (jsIncludes cleanText "plus" || jsIncludes cleanText "+") then "500+"
  else if jsIncludes cleanText "200 -" || jsIncludes cleanText "200-" then "200-500"
  else if jsIncludes cleanText "100 -" || jsIncludes cleanText "100-" then "100-200"
  else if jsIncludes cleanText "50-" || jsIncludes cleanText "50 -" then "50-100"
  else if jsIncludes cleanText "0 -" || jsStartsWith cleanText "0-" then "<50"
  else "unknown"

/-- One step of the stable insertion sort realising the JS
`[...brandList].sort((a, b) => b.length - a.length)` (stable, descending by
string length): an element is inserted before the first element whose length
is at most its own, so earlier elements of equal length stay in front. -/
def insertByLengthDesc (x : String) : List String → List String
  | [] => [x]
  | y :: ys => if y.length ≤ x.length then x :: y :: ys else y :: insertByLengthDesc x ys

/-- The JS stable sort by descending string length used in `findBestMatchingBrand`. -/
def sortByLengthDesc : List String → List String
  | [] => []
  | x :: xs => insertByLengthDesc x (sortByLengthDesc xs)

/-- `findBestMatchingBrand(title, brandList)`: first brand of the
length-descending sorted catalog contained in the uppercased title, else the
first whitespace-delimited chunk of the title (`title.split(/\s+/)[0]`),
uppercased, or `'UNKNOWN'` when that chunk is empty. -/
def findBestMatchingBrand (title : String) (brandList : List String) : String :=
  let titleUpper := jsToUpper title
  let sortedBrands := sortByLengthDesc brandList
  match sortedBrands.find? (fun brand => jsIncludes titleUpper brand) with
  | some brand => brand
  | none =>
    let firstWord := String.mk (title.data.takeWhile (fun c => ¬ jsWs c))
    if firstWord ≠ "" then jsToUpper firstWord else "UNKNOWN"

/-- The `months` lookup table of `parseReviewDate`. -/
def months : List (String × String) :=
  [("jan", "01"), ("feb", "02"), ("mar", "03"), ("apr", "04"),
   ("may", "05"), ("jun", "06"), ("jul", "07"), ("aug", "08"),
   ("sep", "09"), ("oct", "10"), ("nov", "11"), ("dec", "12")]

/-- `months[key]` property access. -/
def monthsLookup (key : String) : Option String :=
  (months.find? (fun p => p.1 = key)).map (fun p => p.2)

def isAsciiAlpha (c : Char) : Bool :=
  ('a' ≤ c && c ≤ 'z') || ('A' ≤ c && c ≤ 'Z')

def isDigitChar (c : Char) : Bool :=
  '0' ≤ c && c ≤ '9'

/-- Match of `/([a-z]{3})\s+(\d{4})/i` anchored at the head of `l`: exactly
three letters, then a (maximal) nonempty whitespace run, then four digits. -/
def monthYearMatchAt (l : List Char) : Option (String × String) :=
  match l with
  | c1 :: c2 :: c3 :: c4 :: rest =>
    if isAsciiAlpha c1 && isAsciiAlpha c2 && isAsciiAlpha c3 && jsWs c4 then
      match rest.dropWhile jsWs with
      | d1 :: d2 :: d3 :: d4 :: _ =>
        if isDigitChar d1 && isDigitChar d2 && isDigitChar d3 && isDigitChar d4 then
          some (String.mk [c1, c2, c3], String.mk [d1, d2, d3, d4])
        else none
      | _ => none
    else none
  | _ => none

/-- Leftmost match of `/([a-z]{3})\s+(\d{4})/i`, as JS `String.prototype.match`. -/
def findMonthYearMatch : List Char → Option (String × String)
  | [] => none
  | c :: rest =>
    match monthYearMatchAt (c :: rest) with
    | some r => some r
    | none => findMonthYearMatch rest

/-- Match of `/(\d{4})/` anchored at the head of `l`. -/
def yearMatchAt (l : List Char) : Option String :=
  match l with
  | d1 :: d2 :: d3 :: d4 :: _ =>
    if isDigitChar d1 && isDigitChar d2 && isDigitChar d3 && isDigitChar d4 then
      some (String.mk [d1, d2, d3, d4])
    else none
  | _ => none

/-- Leftmost match of `/(\d{4})/`. -/
def findYearMatch : List Char → Option String
  | [] => none
  | c :: rest =>
    match yearMatchAt (c :: rest) with
    | some r => some r
    | none => findYearMatch rest

/-- `parseReviewDate(dateStr)`: strip parentheses and trim, try the
month-plus-year pattern first (falling through when the three matched letters
are not a known month abbreviation), then the bare four-digit year, else null. -/
def parseReviewDate (dateStr : String) : Option String :=
  if dateStr = "" then none
  else
    let cleanDate := jsTrim (String.mk (dateStr.data.filter (fun c => c ≠ '(' && c ≠ ')')))
    let yearFallback : Option String :=
      match findYearMatch cleanDate.data with
      | some year => some (year ++ "-01-01")
      | none => none
    match findMonthYearMatch cleanDate.data with
    | some (mon, year) =>
      match monthsLookup (jsToLower mon) with
      | some month => some (year ++ "-" ++ month ++ "-01")
      | none => yearFallback
    | none => yearFallback

/-- A DOM node as used by the price-attribution code: its `startIndex`
(document position recorded by the parser) and its text `data`. -/
structure DomNode where
  startIndex : Nat
  data : String
deriving Repr, DecidableEq

/-- `isHigherInDom(node1, node2)`. -/
def isHigherInDom (node1 node2 : DomNode) : Bool :=
  node1.startIndex < node2.startIndex

/-- The `priceNode` selected by the `forEach` loop of `extractReviewPrice`,
starting from `priceTitles[0]`. -/
def selectedPriceNode (node : DomNode) (priceTitles : List DomNode) (first : DomNode) : DomNode :=
  priceTitles.foldl (fun priceNode priceTitleNode =>
    if ¬ isHigherInDom node priceTitleNode then priceTitleNode else priceNode) first

/-- `extractReviewPrice(node, priceTitles, $)`; on an empty heading list the JS
code dereferences `undefined` and throws, modelled as `none`. -/
def extractReviewPrice (node : DomNode) (priceTitles : List DomNode) : Option String :=
  match priceTitles with
  | [] => none
  | first :: _ => some (mapPriceRange (selectedPriceNode node priceTitles first).data)

/-- A sibling node as inspected by the rating/date text scan of
`extractAllReviews`: a text node with its data, or a tag with its name. -/
inductive SibNode where
  | text (data : String)
  | tag (name : String)
deriving Repr, DecidableEq

/-- The sibling-scanning `while` loop of `extractAllReviews`, accumulating
`followingText`: while a node remains and fewer than 100 characters are
collected, append the data of text nodes containing `'out'`, and break when
the node is a tag whose name equals both `'br'` and `'div'`. -/
def collectFollowingText : List SibNode → String → String
  | [], followingText => followingText
  | nextNode :: rest, followingText =>
    if followingText.length < 100 then
      match nextNode with
      | .text d =>
        if jsIncludes d "out" then collectFollowingText rest (followingText ++ d)
        else collectFollowingText rest followingText
      | .tag name =>
        if name = "br" ∧ name = "div" then followingText
        else collectFollowingText rest followingText
    else followingText

end UkuleleReviewsScraper

/-- A review record as assembled by the scraper (the `UkuleleReview` shape).
The JS `rating` is a JS number obtained from `parseFloat`; it is inert in all
claims below and is modelled as a rational. -/
structure Review where
  size : String
  brand : String
  model : String
  priceRange : String
  url : String
  rating : Rat
  reviewDate : Option String
deriving Repr, DecidableEq

/-- Helper for `insertionDedup`: drop any element already in `seen`. -/
def insertionDedupAux (seen : List String) : List String → List String
  | [] => []
  | x :: xs =>
    if seen.contains x then insertionDedupAux seen xs
    else x :: insertionDedupAux (seen ++ [x]) xs

/-- `[...new Set(l)]`: deduplication keeping first occurrences, in insertion
order, as a JS `Set` built from `l` iterates. -/
def insertionDedup (l : List String) : List String :=
  insertionDedupAux [] l

namespace UkuleleReviewsScraper

/-- The `changes` part of the scraper's diff report: `removed` holds bare URLs. -/
structure ScraperDiffChanges where
  new : List Review
  updated : List Review
  removed : List String
deriving Repr, DecidableEq

/-- The `summary` part of both diff reports. -/
structure DiffSummary where
  totalPrevious : Nat
  totalCurrent : Nat
  netChange : Int
deriving Repr, DecidableEq

/-- The scraper's diff report (timestamp omitted: wall-clock only). -/
structure ScraperDiffReport where
  changes : ScraperDiffChanges
  summary : DiffSummary
deriving Repr, DecidableEq

/-- `generateDiffReport(previousData, currentData)` of the scraper:
`previousData` may be `null` (modelled `none`). -/
def generateDiffReport (previousData : Option (List Review)) (currentData : List Review) :
    ScraperDiffReport :=
  let prevUrls := insertionDedup ((previousData.getD []).map Review.url)
  let currUrls := insertionDedup (currentData.map Review.url)
  let newReviews := currentData.filter (fun item => ¬ prevUrls.contains item.url)
  let removedUrls := prevUrls.filter (fun url => ¬ currUrls.contains url)
  { changes := { new := newReviews, updated := [], removed := removedUrls }
    summary :=
      { totalPrevious := (previousData.getD []).length
        totalCurrent := currentData.length
        netChange := (currentData.length : Int) - ((previousData.getD []).length : Int) } }

/-- The metadata/filter-options record written to `other-data.json`
(`lastUpdated` omitted: wall-clock only). -/
structure Metadata where
  brands : List String
  sizes : List String
  priceRanges : List String
deriving Repr, DecidableEq

/-- Stable lexicographic string sort, modelling the JS default `sort()` on the
brand list (ASCII data, so UTF-16 order and codepoint order agree). -/
def insertLexAsc (x : String) : List String → List String
  | [] => [x]
  | y :: ys => if x ≤ y then x :: y :: ys else y :: insertLexAsc x ys

/-- `Array.from(set).sort()`. -/
def sortLexAsc : List String → List String
  | [] => []
  | x :: xs => insertLexAsc x (sortLexAsc xs)

/-- `saveBrandMetadata(reviews)`, with file effects made explicit: the state is
the list of files written so far, and a thrown error carries the state at the
throw, so that "no write happened before the throw" is visible.  The unique
brand/size/price-range sets are collected, both validations run, and only then
is `other-data.json` written. -/
def saveBrandMetadata (reviews : List Review) (written : List String) :
    Except (String × List String) (Metadata × List String) :=
  let brandSet := insertionDedup (reviews.map Review.brand)
  let sizeSet := insertionDedup (reviews.map Review.size)
  let priceRangeSet := insertionDedup (reviews.map Review.priceRange)
  let metadata : Metadata :=
    { brands := sortLexAsc brandSet
      sizes := ["Soprano", "Concert", "Tenor", "Baritone", "Sopranino", "Other"]
      priceRanges := ["<50", "50-100", "100-200", "200-500", "500+"] }
  if ¬ priceRangeSet.all (fun pr => metadata.priceRanges.contains pr) then
    .error ("Unexpected price ranges found in reviews", written)
  else if ¬ sizeSet.all (fun sz => (metadata.sizes.map jsToLower).contains sz) then
    .error ("Unexpected sizes found in reviews", written)
  else
    .ok (metadata, written ++ ["other-data.json"])

/-- `extractAllReviews()`, abstracted over the fetch/parse stage: `extracted`
stands for the record list assembled from the page.  After assembly the code
calls `checkForNewBrands` (reads only, writes nothing) and then
`saveBrandMetadata`, and only afterwards returns the review list. -/
def extractAllReviews (extracted : List Review) (written : List String) :
    Except (String × List String) (List Review × List String) :=
  match saveBrandMetadata extracted written with
  | .error e => .error e
  | .ok (_, written') => .ok (extracted, written')

/-- `scrape()`, with the same explicit file-effect state: extraction first
(which itself persists the metadata file), then the zero-review check, then
the previous-data load (reads only), the diff, and finally the write of
`ukulele-reviews.json`. -/
def scrape (extracted : List Review) (previousData : Option (List Review))
    (written : List String) :
    Except (String × List String) (ScraperDiffReport × List String) :=
  match extractAllReviews extracted written with
  | .error e => .error e
  | .ok (reviews, written') =>
    if reviews.length = 0 then .error ("No reviews found", written')
    else
      let diffReport := generateDiffReport previousData reviews
      .ok (diffReport, written' ++ ["ukulele-reviews.json"])

end UkuleleReviewsScraper

namespace ChangeDetector

/-- An `updated` entry of the change detector's diff report. -/
structure UpdatedEntry where
  url : String
  previous : Review
  current : Review
deriving Repr, DecidableEq

/-- The `changes` part of the change detector's diff report: `removed` holds
full previous records and `updated` is populated. -/
structure CdDiffChanges where
  new : List Review
  updated : List UpdatedEntry
  removed : List Review
deriving Repr, DecidableEq

/-- The change detector's diff report (timestamp omitted). -/
structure CdDiffReport where
  changes : CdDiffChanges
  summary : UkuleleReviewsScraper.DiffSummary
deriving Repr, DecidableEq

/-- `ChangeDetector.generateDiffReport(previousData, currentData)`: both
arguments may be `null`/missing (modelled `none`); JSON deep equality between
records of the same shape is structural equality. -/
def generateDiffReport (previousData currentData : Option (List Review)) : CdDiffReport :=
  let summary : UkuleleReviewsScraper.DiffSummary :=
    { totalPrevious := (previousData.getD []).length
      totalCurrent := (currentData.getD []).length
      netChange := ((currentData.getD []).length : Int) - ((previousData.getD []).length : Int) }
  match previousData with
  | none =>
    { changes := { new := currentData.getD [], updated := [], removed := [] }
      summary := summary }
  | some prev =>
    let curr := currentData.getD []
    let previousUrls := prev.map Review.url
    let currentUrls := curr.map Review.url
    { changes :=
        { new := curr.filter (fun item => ¬ previousUrls.contains item.url)
          updated := curr.filterMap (fun currentItem =>
            match prev.find? (fun p => p.url = currentItem.url) with
            | some previousItem =>
              if previousItem ≠ currentItem then
                some ⟨currentItem.url, previousItem, currentItem⟩
              else none
            | none => none)
          removed := prev.filter (fun item => ¬ currentUrls.contains item.url) }
      summary := summary }

end ChangeDetector

/-- The price-text mapping exactly as the specification words it: strip the
currency symbol, lowercase (and trim), then match substrings in the fixed
priority order `500`+`plus/+`, `200 -`/`200-`, `100 -`/`100-`, `50-`/`50 -`,
`0 -`/starts-with `0-`, with everything unmatched mapping to `unknown`. -/
def claimedMapPriceRange (text : String) : String :=
  let t := jsTrim (jsToLower (String.mk (text.data.filter (fun c => c ≠ '£'))))
  if jsIncludes t "500" && (jsIncludes t "plus" || jsIncludes t "+") then "500+"
  else if jsIncludes t "200 -" || jsIncludes t "200-" then "200-500"
  else if jsIncludes t "100 -" || jsIncludes t "100-" then "100-200"
  else if jsIncludes t "50-" || jsIncludes t "50 -" then "50-100"
  else if jsIncludes t "0 -" || jsStartsWith t "0-" then "<50"
  else "unknown"

/-- The fallback exactly as claim C7 words it: the first whitespace-delimited
token of the title, uppercased (tokens being the maximal nonempty runs of
non-whitespace characters). -/
def claimedFirstTokenFallback (title : String) : String :=
  jsToUpper (String.mk ((((title.data.splitOnP jsWs)).filter (fun t => t ≠ [])).headD []))

/-- An anchored occurrence of a *recognized* three-letter month abbreviation
followed by whitespace and four digits (the reading of "a 3-letter month name
followed by a 4-digit year" in claim C9). -/
def claimedMonthYearAt (l : List Char) : Option (String × String) :=
  match UkuleleReviewsScraper.monthYearMatchAt l with
  | some (mon, yr) =>
    if (UkuleleReviewsScraper.monthsLookup (jsToLower mon)).isSome then some (mon, yr) else none
  | none => none

/-- The leftmost occurrence, anywhere in the string, of a recognized month
abbreviation followed by whitespace and a four-digit year: claim C9 asserts
month-level output whenever this is `some`. -/
def claimedFindMonthYear : List Char → Option (String × String)
  | [] => none
  | c :: rest =>
    match claimedMonthYearAt (c :: rest) with
    | some r => some r
    | none => claimedFindMonthYear rest

/-- `parseReviewDate` as amended by claim C9's correction: only the *first*
occurrence of `three letters, whitespace, four digits` in the cleaned string is
examined; when its letters are a recognized month abbreviation the result has
month precision, otherwise the bare-year fallback applies even if a valid
month-year pair occurs later in the string. -/
def amendedParseReviewDate (dateStr : String) : Option String :=
  if dateStr = "" then none
  else
    let cleaned := jsTrim (String.mk (dateStr.data.filter (fun c => c ≠ '(' && c ≠ ')')))
    match UkuleleReviewsScraper.findMonthYearMatch cleaned.data with
    | some (mon, year) =>
      match UkuleleReviewsScraper.monthsLookup (jsToLower mon) with
      | some month => some (year ++ "-" ++ month ++ "-01")
      | none => (UkuleleReviewsScraper.findYearMatch cleaned.data).map (fun y => y ++ "-01-01")
    | none => (UkuleleReviewsScraper.findYearMatch cleaned.data).map (fun y => y ++ "-01-01")

/-! ### General lemmas about the list helpers -/

theorem contains_eq_mem (l : List String) (a : String) : l.contains a = true ↔ a ∈ l := by
  simp

theorem mem_insertionDedupAux (a : String) :
    ∀ (l seen : List String), a ∈ insertionDedupAux seen l ↔ (a ∈ l ∧ a ∉ seen) := by
  intro l
  induction l with
  | nil => intro seen; simp [insertionDedupAux]
  | cons x xs ih =>
    intro seen
    rw [insertionDedupAux]
    by_cases hx : x ∈ seen
    · rw [if_pos ((contains_eq_mem _ _).mpr hx), ih]
      simp only [List.mem_cons]
      constructor
      · rintro ⟨h1, h2⟩; exact ⟨Or.inr h1, h2⟩
      · rintro ⟨h1 | h1, h2⟩
        · exact absurd (h1 ▸ hx) h2
        · exact ⟨h1, h2⟩
    · rw [if_neg (fun hc => hx ((contains_eq_mem _ _).mp hc))]
      simp only [List.mem_cons, ih, List.mem_append, List.mem_singleton]
      constructor
      · rintro (rfl | ⟨h1, h2⟩)
        · exact ⟨Or.inl rfl, hx⟩
        · push_neg at h2; exact ⟨Or.inr h1, h2.1⟩
      · rintro ⟨h1 | h1, h2⟩
        · exact Or.inl h1
        · by_cases hax : a = x
          · exact Or.inl hax
          · exact Or.inr ⟨h1, by simp [List.mem_append, List.mem_singleton, h2, hax]⟩

theorem mem_insertionDedup (a : String) (l : List String) :
    a ∈ insertionDedup l ↔ a ∈ l := by
  rw [insertionDedup, mem_insertionDedupAux]; simp

theorem nodup_insertionDedupAux :
    ∀ (l seen : List String), (insertionDedupAux seen l).Nodup := by
  intro l
  induction l with
  | nil => intro seen; simp [insertionDedupAux]
  | cons x xs ih =>
    intro seen
    rw [insertionDedupAux]
    by_cases hx : x ∈ seen
    · rw [if_pos ((contains_eq_mem _ _).mpr hx)]; exact ih seen
    · rw [if_neg (fun hc => hx ((contains_eq_mem _ _).mp hc)), List.nodup_cons]
      refine ⟨fun hmem => ?_, ih _⟩
      rw [mem_insertionDedupAux] at hmem
      exact hmem.2 (by simp)

theorem nodup_insertionDedup (l : List String) : (insertionDedup l).Nodup :=
  nodup_insertionDedupAux l []

/-! ### Lemmas about the size and price classifiers -/

theorem getEdgeCaseSize_eq_some {title s : String}
    (h : UkuleleReviewsScraper.getEdgeCaseSize title = some s) : s = "concert" := by
  rw [UkuleleReviewsScraper.getEdgeCaseSize] at h
  by_cases hc : jsTrim (jsToLower title) = "enya euc-ms"
  · rw [if_pos hc] at h
    exact (Option.some_injective _ h).symm
  · rw [if_neg hc] at h
    exact absurd h (by simp)

/-- C6: for every input string, `extractSize` lands in the six-element size
enumeration and `mapPriceRange` lands in the six-element price-range
enumeration, so every extracted record's `size` and `priceRange` lie in their
allowed categories. -/
theorem c6_size_and_priceRange_enums (title priceText : String) :
    UkuleleReviewsScraper.extractSize title ∈
      (["soprano", "sopranino", "concert", "tenor", "baritone", "other"] : List String) ∧
    UkuleleReviewsScraper.mapPriceRange priceText ∈
      (["<50", "50-100", "100-200", "200-500", "500+", "unknown"] : List String) := by
  constructor
  · rcases hedge : UkuleleReviewsScraper.getEdgeCaseSize title with _ | s
    · simp only [UkuleleReviewsScraper.extractSize, hedge]
      repeat' split
      all_goals simp
    · have hs := getEdgeCaseSize_eq_some hedge
      subst hs
      simp [UkuleleReviewsScraper.extractSize, hedge]
  · simp only [UkuleleReviewsScraper.mapPriceRange]
    repeat' split
    all_goals simp

/-- C8: `mapPriceRange` agrees everywhere with the mapping exactly as the
specification words it (fixed-priority substring matching on the
currency-stripped, lowercased text, `unknown` for everything unmatched), and
in particular maps `"Ukuleles £200 - £500"` to `"200-500"`. -/
theorem c8_mapPriceRange_matches_spec (s : String) :
    UkuleleReviewsScraper.mapPriceRange s = claimedMapPriceRange s ∧
    UkuleleReviewsScraper.mapPriceRange "Ukuleles £200 - £500" = "200-500" ∧
    UkuleleReviewsScraper.mapPriceRange "some unrecognized text" = "unknown" :=
  ⟨rfl, by decide, by decide⟩

/-- C3 counterexample: `"sopranino"` does not contain `"soprano"` as a
substring, so on the title `"sopranino"` (which contains the keyword
`sopranino` and is not the documented exception) `extractSize` returns
`"sopranino"`, not `"soprano"` as the claim states. -/
theorem c3_counterexample :
    jsIncludes (jsToLower "sopranino") "sopranino" = true ∧
    jsIncludes (jsToLower "sopranino") "soprano" = false ∧
    UkuleleReviewsScraper.getEdgeCaseSize "sopranino" = none ∧
    UkuleleReviewsScraper.extractSize "sopranino" = "sopranino" ∧
    UkuleleReviewsScraper.extractSize "sopranino" ≠ "soprano" := by
  refine ⟨rfl, rfl, rfl, rfl, ?_⟩
  decide

/-- C3 as amended: the size keywords are tested in the fixed priority order
`soprano → sopranino → concert → tenor → baritone` and the first matching
branch wins, but `"sopranino"` does not contain `"soprano"` as a substring;
hence a non-exception title containing `sopranino` yields `"soprano"` exactly
when it also contains `soprano` elsewhere, and `"sopranino"` otherwise. -/
theorem c3_sopranino_priority (title : String)
    (h1 : jsIncludes (jsToLower title) "sopranino" = true)
    (h2 : UkuleleReviewsScraper.getEdgeCaseSize title = none) :
    UkuleleReviewsScraper.extractSize title =
      if jsIncludes (jsToLower title) "soprano" then "soprano" else "sopranino" := by
  simp only [UkuleleReviewsScraper.extractSize, h2]
  by_cases h : jsIncludes (jsToLower title) "soprano" = true
  · simp [h]
  · simp [h, h1]

theorem c3_sopranino_priority_witness :
    UkuleleReviewsScraper.extractSize "Bruko sopranino piccolo" = "sopranino" := by
  have h := c3_sopranino_priority "Bruko sopranino piccolo" (by decide) (by decide)
  simpa using h

/-- C2 counterexample: with zero extracted reviews, `scrape` does throw
`'No reviews found'`, but at the moment it throws the metadata/filter-options
file `other-data.json` has already been written by `saveBrandMetadata`
(called from `extractAllReviews` before the zero-review check), contradicting
"aborts before any write". -/
theorem c2_counterexample :
    UkuleleReviewsScraper.scrape [] none [] =
      .error ("No reviews found", ["other-data.json"]) := rfl

/-- C2 as amended: a run that extracts zero reviews throws `'No reviews found'`
and never writes the reviews file `ukulele-reviews.json`, but the
metadata/filter-options file `other-data.json` has already been written when
the error is thrown (the error value carries the list of files written so
far). -/
theorem c2_zero_reviews_aborts_after_metadata_write
    (previousData : Option (List Review)) (written : List String) :
    UkuleleReviewsScraper.scrape [] previousData written =
      .error ("No reviews found", written ++ ["other-data.json"]) := rfl

/-- C4: the sibling-scan loop of `extractAllReviews` never stops at a `br` or
`div` element, because its break condition requires the tag name to equal both
`'br'` and `'div'` at once: a tag node is always skipped (when under the
100-character budget), and on the failing input — a text node, then a `br`,
then another text node — the text after the `br` is still accumulated. -/
theorem c4_sibling_scan_ignores_breaks :
    (∀ (sibs : List UkuleleReviewsScraper.SibNode) (acc : String) (nm : String),
      UkuleleReviewsScraper.collectFollowingText (.tag nm :: sibs) acc =
        if acc.length < 100 then UkuleleReviewsScraper.collectFollowingText sibs acc else acc) ∧
    UkuleleReviewsScraper.collectFollowingText
      [.text " - 9 out of 10 (Mar 2021)", .tag "br", .text " 8 out of 10 (May 2020)"] "" =
      " - 9 out of 10 (Mar 2021) 8 out of 10 (May 2020)" := by
  constructor
  · intro sibs acc nm
    have hnm : ¬ (nm = "br" ∧ nm = "div") := by
      rintro ⟨hbr, hdiv⟩
      rw [hbr] at hdiv
      exact absurd hdiv (by decide)
    simp only [UkuleleReviewsScraper.collectFollowingText, hnm, if_false]
  · rfl

/-- C10: any review list containing a record whose `priceRange` is `"unknown"`
makes `saveBrandMetadata` throw `'Unexpected price ranges found in reviews'`
before writing the metadata file: its allow-list is the five-element list
without `"unknown"` (the error value carries the unchanged list of written
files). -/
theorem c10_unknown_priceRange_is_fatal (reviews : List Review) (written : List String)
    (h : ∃ r ∈ reviews, r.priceRange = "unknown") :
    UkuleleReviewsScraper.saveBrandMetadata reviews written =
      .error ("Unexpected price ranges found in reviews", written) := by
  obtain ⟨r, hr, hpr⟩ := h
  have hmem : ("unknown" : String) ∈ insertionDedup (reviews.map Review.priceRange) :=
    (mem_insertionDedup _ _).mpr (List.mem_map.mpr ⟨r, hr, hpr⟩)
  have hall : ¬ (insertionDedup (reviews.map Review.priceRange)).all
      (fun pr => (["<50", "50-100", "100-200", "200-500", "500+"] : List String).contains pr)
        = true := by
    intro hall
    have := List.all_eq_true.mp hall _ hmem
    exact absurd this (by decide)
  simp only [UkuleleReviewsScraper.saveBrandMetadata]
  rw [if_pos hall]

theorem c10_unknown_priceRange_is_fatal_witness :
    UkuleleReviewsScraper.saveBrandMetadata
      [{ size := "soprano", brand := "KALA", model := "KA-S", priceRange := "unknown",
         url := "https://www.gotaukulele.com/x", rating := 9, reviewDate := none }] [] =
      .error ("Unexpected price ranges found in reviews", []) :=
  c10_unknown_priceRange_is_fatal _ []
    ⟨{ size := "soprano", brand := "KALA", model := "KA-S", priceRange := "unknown",
       url := "https://www.gotaukulele.com/x", rating := 9, reviewDate := none },
     List.mem_singleton.mpr rfl, rfl⟩

/-! ### C1: price attribution by document position -/

theorem getLast?_getD_cons {α : Type} (t : List α) (a x : α) :
    ((a :: t).getLast?).getD x = (t.getLast?).getD a := by
  rw [List.getLast?_cons]
  rfl

/-- The `forEach` loop of `extractReviewPrice` keeps the *last* heading of the
list whose `startIndex` is at most the anchor's, and keeps the initial value
when no heading qualifies. -/
theorem selectedPriceNode_eq (node : UkuleleReviewsScraper.DomNode) :
    ∀ (l : List UkuleleReviewsScraper.DomNode) (first : UkuleleReviewsScraper.DomNode),
      UkuleleReviewsScraper.selectedPriceNode node l first =
        ((l.filter (fun p => p.startIndex ≤ node.startIndex)).getLast?).getD first := by
  intro l
  induction l with
  | nil => intro first; rfl
  | cons p rest ih =>
    intro first
    have step : UkuleleReviewsScraper.selectedPriceNode node (p :: rest) first =
        UkuleleReviewsScraper.selectedPriceNode node rest
          (if ¬ UkuleleReviewsScraper.isHigherInDom node p then p else first) := rfl
    rw [step]
    by_cases hp : p.startIndex ≤ node.startIndex
    · have hcond : ¬ UkuleleReviewsScraper.isHigherInDom node p = true := by
        simp [UkuleleReviewsScraper.isHigherInDom, Nat.not_lt, hp]
      rw [if_pos hcond, ih, List.filter_cons_of_pos (by simpa using hp), getLast?_getD_cons]
    · have hcond : ¬ ¬ UkuleleReviewsScraper.isHigherInDom node p = true := by
        simp [UkuleleReviewsScraper.isHigherInDom, Nat.lt_of_not_le hp]
      rw [if_neg hcond, ih, List.filter_cons_of_neg (by simpa using hp)]

/-- In a list strictly sorted by `startIndex`, the last element dominates. -/
theorem getLast?_max_of_pairwise_lt :
    ∀ {l : List UkuleleReviewsScraper.DomNode},
      l.Pairwise (fun a b => a.startIndex < b.startIndex) →
      ∀ {m : UkuleleReviewsScraper.DomNode}, l.getLast? = some m →
      ∀ p ∈ l, p.startIndex ≤ m.startIndex := by
  intro l
  induction l with
  | nil => intro _ m hm; exact absurd hm (by simp)
  | cons a t ih =>
    intro hs m hm p hp
    rw [List.pairwise_cons] at hs
    cases t with
    | nil =>
      have hma : a = m := by simpa using hm
      have hpa : p = a := by simpa using hp
      rw [hpa, ← hma]
    | cons b t' =>
      rw [List.getLast?_cons_cons] at hm
      rcases List.mem_cons.mp hp with rfl | hp'
      · have hmmem : m ∈ b :: t' := List.mem_of_mem_getLast? (by simp [hm])
        exact Nat.le_of_lt (hs.1 m hmmem)
      · exact ih hs.2 hm p hp'

/-- C1: on a non-empty, document-ordered heading list, `extractReviewPrice`
maps the anchor through a chosen heading which (a) whenever any heading starts
at or before the anchor, itself starts at or before the anchor and has the
largest such start position, and (b) when every heading starts after the
anchor, is the first heading of the list. -/
theorem c1_nearest_preceding_heading (node : UkuleleReviewsScraper.DomNode)
    (priceTitles : List UkuleleReviewsScraper.DomNode)
    (hne : priceTitles ≠ [])
    (hsorted : priceTitles.Pairwise (fun a b => a.startIndex < b.startIndex)) :
    ∃ chosen : UkuleleReviewsScraper.DomNode,
      UkuleleReviewsScraper.extractReviewPrice node priceTitles =
        some (UkuleleReviewsScraper.mapPriceRange chosen.data) ∧
      chosen ∈ priceTitles ∧
      (∀ p ∈ priceTitles, p.startIndex ≤ node.startIndex →
        chosen.startIndex ≤ node.startIndex ∧ p.startIndex ≤ chosen.startIndex) ∧
      ((∀ p ∈ priceTitles, node.startIndex < p.startIndex) →
        priceTitles.head? = some chosen) := by
  obtain ⟨first, rest, rfl⟩ := List.exists_cons_of_ne_nil hne
  refine ⟨UkuleleReviewsScraper.selectedPriceNode node (first :: rest) first, rfl, ?_, ?_, ?_⟩
  all_goals rw [selectedPriceNode_eq]
  all_goals
    rcases hlast : (((first :: rest)).filter
        (fun p => decide (p.startIndex ≤ node.startIndex))).getLast? with _ | m
  all_goals rw [hlast]
  all_goals simp only [Option.getD_some, Option.getD_none]
  · exact List.mem_cons_self first rest
  · exact List.mem_of_mem_filter (List.mem_of_mem_getLast? hlast)
  · intro p hp hple
    have hnil : ((first :: rest)).filter (fun p => decide (p.startIndex ≤ node.startIndex)) = [] :=
      List.getLast?_eq_none_iff.mp hlast
    have hnone := List.filter_eq_nil_iff.mp hnil p hp
    simp [hple] at hnone
  · intro p hp hple
    have hmF := List.mem_of_mem_getLast? hlast
    have hmle : m.startIndex ≤ node.startIndex := by
      simpa using List.of_mem_filter hmF
    refine ⟨hmle, ?_⟩
    have hpF : p ∈ ((first :: rest)).filter (fun p => decide (p.startIndex ≤ node.startIndex)) :=
      List.mem_filter.mpr ⟨hp, by simpa using hple⟩
    exact getLast?_max_of_pairwise_lt (hsorted.filter _) hlast p hpF
  · intro _
    rfl
  · intro hall
    have hmF := List.mem_of_mem_getLast? hlast
    have hmle : m.startIndex ≤ node.startIndex := by
      simpa using List.of_mem_filter hmF
    exact absurd hmle (Nat.not_le.mpr (hall m (List.mem_of_mem_filter hmF)))

theorem c1_nearest_preceding_heading_witness :
    ∃ chosen : UkuleleReviewsScraper.DomNode,
      UkuleleReviewsScraper.extractReviewPrice ⟨150, "anchor"⟩
          [⟨10, "Ukuleles £0 - £50"⟩, ⟨100, "Ukuleles £200 - £500"⟩] =
        some (UkuleleReviewsScraper.mapPriceRange chosen.data) ∧
      chosen ∈ ([⟨10, "Ukuleles £0 - £50"⟩, ⟨100, "Ukuleles £200 - £500"⟩] :
          List UkuleleReviewsScraper.DomNode) ∧
      (∀ p ∈ ([⟨10, "Ukuleles £0 - £50"⟩, ⟨100, "Ukuleles £200 - £500"⟩] :
          List UkuleleReviewsScraper.DomNode),
        p.startIndex ≤ (150 : Nat) →
        chosen.startIndex ≤ (150 : Nat) ∧ p.startIndex ≤ chosen.startIndex) ∧
      ((∀ p ∈ ([⟨10, "Ukuleles £0 - £50"⟩, ⟨100, "Ukuleles £200 - £500"⟩] :
          List UkuleleReviewsScraper.DomNode), (150 : Nat) < p.startIndex) →
        ([⟨10, "Ukuleles £0 - £50"⟩, ⟨100, "Ukuleles £200 - £500"⟩] :
          List UkuleleReviewsScraper.DomNode).head? = some chosen) :=
  c1_nearest_preceding_heading ⟨150, "anchor"⟩
    [⟨10, "Ukuleles £0 - £50"⟩, ⟨100, "Ukuleles £200 - £500"⟩]
    (by simp) (by simp [List.pairwise_cons])

/-! ### C7: longest-brand matching -/

theorem mem_insertByLengthDesc (a x : String) :
    ∀ l, a ∈ UkuleleReviewsScraper.insertByLengthDesc x l ↔ a = x ∨ a ∈ l := by
  intro l
  induction l with
  | nil => simp [UkuleleReviewsScraper.insertByLengthDesc]
  | cons y ys ih =>
    rw [UkuleleReviewsScraper.insertByLengthDesc]
    by_cases h : y.length ≤ x.length
    · rw [if_pos h]; simp [List.mem_cons]
    · rw [if_neg h]
      simp only [List.mem_cons, ih]
      tauto

theorem mem_sortByLengthDesc (a : String) :
    ∀ l, a ∈ UkuleleReviewsScraper.sortByLengthDesc l ↔ a ∈ l := by
  intro l
  induction l with
  | nil => simp [UkuleleReviewsScraper.sortByLengthDesc]
  | cons x xs ih =>
    rw [UkuleleReviewsScraper.sortByLengthDesc, mem_insertByLengthDesc]
    simp [ih]

theorem pairwise_insertByLengthDesc (x : String) :
    ∀ l, l.Pairwise (fun a b => b.length ≤ a.length) →
      (UkuleleReviewsScraper.insertByLengthDesc x l).Pairwise
        (fun a b => b.length ≤ a.length) := by
  intro l
  induction l with
  | nil => intro _; simp [UkuleleReviewsScraper.insertByLengthDesc]
  | cons y ys ih =>
    intro h
    rw [List.pairwise_cons] at h
    rw [UkuleleReviewsScraper.insertByLengthDesc]
    by_cases hle : y.length ≤ x.length
    · rw [if_pos hle, List.pairwise_cons]
      refine ⟨?_, List.pairwise_cons.mpr h⟩
      intro b hb
      rcases List.mem_cons.mp hb with rfl | hb'
      · exact hle
      · exact le_trans (h.1 b hb') hle
    · rw [if_neg hle, List.pairwise_cons]
      refine ⟨?_, ih h.2⟩
      intro b hb
      rcases (mem_insertByLengthDesc b x ys).mp hb with rfl | hb'
      · exact Nat.le_of_lt (Nat.lt_of_not_le hle)
      · exact h.1 b hb'

theorem pairwise_sortByLengthDesc :
    ∀ l, (UkuleleReviewsScraper.sortByLengthDesc l).Pairwise
      (fun a b => b.length ≤ a.length) := by
  intro l
  induction l with
  | nil => simp [UkuleleReviewsScraper.sortByLengthDesc]
  | cons x xs ih => exact pairwise_insertByLengthDesc x _ ih

/-- In a length-descending list, `find?` returns a satisfying element of
maximal length. -/
theorem find?_max_of_sorted (p : String → Bool) :
    ∀ (l : List String), l.Pairwise (fun a b => b.length ≤ a.length) →
      ∀ b, l.find? p = some b → ∀ a ∈ l, p a = true → a.length ≤ b.length := by
  intro l
  induction l with
  | nil => intro _ b hb; simp at hb
  | cons y ys ih =>
    intro hs b hb a ha hpa
    rw [List.pairwise_cons] at hs
    by_cases hy : p y = true
    · rw [List.find?_cons_of_pos _ hy] at hb
      have hby : y = b := Option.some_injective _ hb
      subst hby
      rcases List.mem_cons.mp ha with rfl | ha'
      · exact le_refl _
      · exact hs.1 a ha'
    · rw [List.find?_cons_of_neg _ hy] at hb
      rcases List.mem_cons.mp ha with rfl | ha'
      · exact absurd hpa hy
      · exact ih hs.2 b hb a ha' hpa

/-- C7 counterexample: on the title `" hello"` (leading whitespace) with an
empty catalog, JS `split(/\s+/)[0]` is the empty string, so the code returns
`'UNKNOWN'` rather than the uppercased first whitespace-delimited token
`"HELLO"` asserted by the claim. -/
theorem c7_counterexample :
    UkuleleReviewsScraper.findBestMatchingBrand " hello" [] = "UNKNOWN" ∧
    claimedFirstTokenFallback " hello" = "HELLO" ∧
    UkuleleReviewsScraper.findBestMatchingBrand " hello" [] ≠
      claimedFirstTokenFallback " hello" := by
  refine ⟨rfl, rfl, by decide⟩

/-- C7 as amended: `findBestMatchingBrand` returns a catalog brand of maximal
length among those occurring in the uppercased title; when no catalog brand
matches it uppercases the text before the first whitespace character, except
that an empty such text (empty title or title starting with whitespace) yields
`'UNKNOWN'`; on catalog `["KALA","KALA BRAND"]` and title
`"Kala Brand KA-S Soprano"` it returns `"KALA BRAND"`. -/
theorem c7_longest_brand_match (title : String) (brandList : List String) :
    (∀ b ∈ brandList, jsIncludes (jsToUpper title) b = true →
      (UkuleleReviewsScraper.findBestMatchingBrand title brandList ∈ brandList ∧
       jsIncludes (jsToUpper title)
         (UkuleleReviewsScraper.findBestMatchingBrand title brandList) = true ∧
       b.length ≤ (UkuleleReviewsScraper.findBestMatchingBrand title brandList).length)) ∧
    ((∀ b ∈ brandList, ¬ jsIncludes (jsToUpper title) b = true) →
      UkuleleReviewsScraper.findBestMatchingBrand title brandList =
        (if String.mk (title.data.takeWhile (fun c => ¬ jsWs c)) ≠ "" then
           jsToUpper (String.mk (title.data.takeWhile (fun c => ¬ jsWs c)))
         else "UNKNOWN")) ∧
    UkuleleReviewsScraper.findBestMatchingBrand "Kala Brand KA-S Soprano"
      ["KALA", "KALA BRAND"] = "KALA BRAND" := by
  refine ⟨?_, ?_, by decide⟩
  · intro b hb hpb
    rcases hf : (UkuleleReviewsScraper.sortByLengthDesc brandList).find?
        (fun brand => jsIncludes (jsToUpper title) brand) with _ | r
    · exfalso
      exact List.find?_eq_none.mp hf b ((mem_sortByLengthDesc b brandList).mpr hb) hpb
    · have hres : UkuleleReviewsScraper.findBestMatchingBrand title brandList = r := by
        simp only [UkuleleReviewsScraper.findBestMatchingBrand, hf]
      rw [hres]
      refine ⟨?_, ?_, ?_⟩
      · exact (mem_sortByLengthDesc r brandList).mp (List.mem_of_find?_eq_some hf)
      · exact List.find?_some hf
      · exact find?_max_of_sorted _ _ (pairwise_sortByLengthDesc brandList) r hf b
          ((mem_sortByLengthDesc b brandList).mpr hb) hpb
  · intro hall
    have hf : (UkuleleReviewsScraper.sortByLengthDesc brandList).find?
        (fun brand => jsIncludes (jsToUpper title) brand) = none := by
      rw [List.find?_eq_none]
      intro b hb
      exact hall b ((mem_sortByLengthDesc b brandList).mp hb)
    simp only [UkuleleReviewsScraper.findBestMatchingBrand, hf]

theorem c7_longest_brand_match_witness :
    (UkuleleReviewsScraper.findBestMatchingBrand "Kala Brand KA-S Soprano"
        ["KALA", "KALA BRAND"] ∈ (["KALA", "KALA BRAND"] : List String) ∧
     jsIncludes (jsToUpper "Kala Brand KA-S Soprano")
       (UkuleleReviewsScraper.findBestMatchingBrand "Kala Brand KA-S Soprano"
         ["KALA", "KALA BRAND"]) = true ∧
     ("KALA" : String).length ≤
       (UkuleleReviewsScraper.findBestMatchingBrand "Kala Brand KA-S Soprano"
         ["KALA", "KALA BRAND"]).length) ∧
    UkuleleReviewsScraper.findBestMatchingBrand "zither uke" [] =
      (if String.mk (("zither uke" : String).data.takeWhile (fun c => ¬ jsWs c)) ≠ "" then
         jsToUpper (String.mk (("zither uke" : String).data.takeWhile (fun c => ¬ jsWs c)))
       else "UNKNOWN") := by
  constructor
  · exact (c7_longest_brand_match "Kala Brand KA-S Soprano" ["KALA", "KALA BRAND"]).1
      "KALA" (by decide) (by decide)
  · exact (c7_longest_brand_match "zither uke" []).2.1 (by simp)

/-! ### C9: date parsing -/

/-- C9 counterexample: `"(abc 2021 mar 2022)"` contains the recognized month
`mar` followed by the four-digit year `2022`, yet `parseReviewDate` returns
`"2021-01-01"`, because only the *first* ⟨3 letters, whitespace, 4 digits⟩
occurrence (`"abc 2021"`, whose letters are not a month) is consulted before
falling through to the bare-year branch. -/
theorem c9_counterexample :
    claimedFindMonthYear ("(abc 2021 mar 2022)".data) = some ("mar", "2022") ∧
    UkuleleReviewsScraper.parseReviewDate "(abc 2021 mar 2022)" = some "2021-01-01" ∧
    UkuleleReviewsScraper.parseReviewDate "(abc 2021 mar 2022)" ≠ some "2022-03-01" := by
  refine ⟨rfl, rfl, by decide⟩

/-- C9 as amended: `parseReviewDate` agrees everywhere with the first-match
semantics (only the leftmost ⟨3 letters, whitespace, 4 digits⟩ occurrence in
the cleaned string yields month precision, with the bare-year fallback
otherwise and `null` when no four-digit run exists); the documented examples
hold, and no day-level precision is ever produced: every result ends in
`"-01"`. -/
theorem c9_date_parsing_first_match (s : String) :
    UkuleleReviewsScraper.parseReviewDate s = amendedParseReviewDate s ∧
    UkuleleReviewsScraper.parseReviewDate "(Mar 2021)" = some "2021-03-01" ∧
    UkuleleReviewsScraper.parseReviewDate "(2019)" = some "2019-01-01" ∧
    UkuleleReviewsScraper.parseReviewDate "(unknown)" = none ∧
    UkuleleReviewsScraper.parseReviewDate "" = none ∧
    (∀ r, UkuleleReviewsScraper.parseReviewDate s = some r → ∃ pre, r = pre ++ "-01") := by
  refine ⟨?_, rfl, rfl, rfl, rfl, ?_⟩
  · by_cases hs : s = ""
    · simp [UkuleleReviewsScraper.parseReviewDate, amendedParseReviewDate, hs]
    · simp only [UkuleleReviewsScraper.parseReviewDate, amendedParseReviewDate, if_neg hs]
      rcases h1 : UkuleleReviewsScraper.findMonthYearMatch
          (jsTrim (String.mk (s.data.filter (fun c => c ≠ '(' && c ≠ ')')))).data
          with _ | ⟨mon, yr⟩
      · simp only [h1]
        rcases h3 : UkuleleReviewsScraper.findYearMatch
            (jsTrim (String.mk (s.data.filter (fun c => c ≠ '(' && c ≠ ')')))).data with _ | y
        · simp [h3]
        · simp [h3]
      · simp only [h1]
        rcases h2 : UkuleleReviewsScraper.monthsLookup (jsToLower mon) with _ | mm
        · simp only [h2]
          rcases h3 : UkuleleReviewsScraper.findYearMatch
              (jsTrim (String.mk (s.data.filter (fun c => c ≠ '(' && c ≠ ')')))).data with _ | y
          · simp [h3]
          · simp [h3]
        · simp [h2]
  · intro r hr
    by_cases hs : s = ""
    · rw [hs] at hr
      simp [UkuleleReviewsScraper.parseReviewDate] at hr
    · simp only [UkuleleReviewsScraper.parseReviewDate, if_neg hs] at hr
      rcases h1 : UkuleleReviewsScraper.findMonthYearMatch
          (jsTrim (String.mk (s.data.filter (fun c => c ≠ '(' && c ≠ ')')))).data
          with _ | ⟨mon, yr⟩
      · simp only [h1] at hr
        rcases h3 : UkuleleReviewsScraper.findYearMatch
            (jsTrim (String.mk (s.data.filter (fun c => c ≠ '(' && c ≠ ')')))).data with _ | y
        · simp only [h3] at hr
          exact absurd hr (by simp)
        · simp only [h3, Option.some.injEq] at hr
          refine ⟨y ++ "-01", ?_⟩
          rw [← hr, String.append_assoc]
          rfl
      · simp only [h1] at hr
        rcases h2 : UkuleleReviewsScraper.monthsLookup (jsToLower mon) with _ | mm
        · simp only [h2] at hr
          rcases h3 : UkuleleReviewsScraper.findYearMatch
              (jsTrim (String.mk (s.data.filter (fun c => c ≠ '(' && c ≠ ')')))).data with _ | y
          · simp only [h3] at hr
            exact absurd hr (by simp)
          · simp only [h3, Option.some.injEq] at hr
            refine ⟨y ++ "-01", ?_⟩
            rw [← hr, String.append_assoc]
            rfl
        · simp only [h2, Option.some.injEq] at hr
          exact ⟨yr ++ "-" ++ mm, hr.symm⟩

theorem c9_date_parsing_first_match_witness :
    ∃ pre, ("2021-03-01" : String) = pre ++ "-01" :=
  (c9_date_parsing_first_match "(Mar 2021)").2.2.2.2.2 "2021-03-01" rfl

/-! ### C5: diff reports keyed by URL -/

theorem filter_url_not_mem_eq_nil (l : List Review) (urls : List String)
    (h : ∀ a ∈ l, a.url ∈ urls) :
    l.filter (fun item => ¬ urls.contains item.url) = [] := by
  rw [List.filter_eq_nil_iff]
  intro a ha
  simp [contains_eq_mem, h a ha]

theorem filter_mem_eq_nil (l urls : List String) (h : ∀ u ∈ l, u ∈ urls) :
    l.filter (fun u => ¬ urls.contains u) = [] := by
  rw [List.filter_eq_nil_iff]
  intro a ha
  simp [contains_eq_mem, h a ha]

theorem filter_url_singleton (P Q : List Review) (r : Review) (urls : List String)
    (hP : ∀ a ∈ P, a.url ∈ urls) (hQ : ∀ a ∈ Q, a.url ∈ urls) (hr : r.url ∉ urls) :
    (P ++ r :: Q).filter (fun item => ¬ urls.contains item.url) = [r] := by
  rw [List.filter_append, filter_url_not_mem_eq_nil P urls hP, List.nil_append,
    List.filter_cons_of_pos (by simp [contains_eq_mem, hr]),
    filter_url_not_mem_eq_nil Q urls hQ]

theorem filter_eq_singleton_of_nodup {α : Type} (p : α → Bool) :
    ∀ (l : List α) (a : α), l.Nodup → a ∈ l → (∀ b ∈ l, (p b = true ↔ b = a)) →
      l.filter p = [a] := by
  intro l
  induction l with
  | nil => intro a _ ha; simp at ha
  | cons x xs ih =>
    intro a hnd hmem hiff
    rw [List.nodup_cons] at hnd
    rcases List.mem_cons.mp hmem with rfl | hmem'
    · rw [List.filter_cons_of_pos ((hiff a (List.mem_cons_self a xs)).mpr rfl)]
      have hnil : xs.filter p = [] := by
        rw [List.filter_eq_nil_iff]
        intro b hb hpb
        have hba := (hiff b (List.mem_cons_of_mem _ hb)).mp hpb
        rw [hba] at hb
        exact hnd.1 hb
      rw [hnil]
    · have hpx : ¬ p x = true := by
        intro hpx
        have hxa := (hiff x (List.mem_cons_self x xs)).mp hpx
        rw [hxa] at hnd
        exact hnd.1 hmem'
      rw [List.filter_cons_of_neg hpx]
      exact ih a hnd.2 hmem' (fun b hb => hiff b (List.mem_cons_of_mem _ hb))

/-- C5: both diff implementations classify by URL equality — `new` is exactly
the current records whose URL is absent from the previous list, `removed` is
exactly the previous entries (bare deduplicated URLs in the scraper, full
records in the change detector) whose URL is absent from the current list; in
particular adding one record with a fresh URL yields `new = [record]` and
`removed = []`, and removing one record (with a URL occurring nowhere else)
yields `removed = [its URL]` (resp. `[the record]`) and `new = []`. -/
theorem c5_diff_reports_by_url (prev cur : List Review) :
    (∀ r : Review,
      r ∈ (UkuleleReviewsScraper.generateDiffReport (some prev) cur).changes.new ↔
        (r ∈ cur ∧ r.url ∉ prev.map Review.url)) ∧
    (∀ u : String,
      u ∈ (UkuleleReviewsScraper.generateDiffReport (some prev) cur).changes.removed ↔
        (u ∈ prev.map Review.url ∧ u ∉ cur.map Review.url)) ∧
    (∀ r : Review,
      r ∈ (ChangeDetector.generateDiffReport (some prev) (some cur)).changes.new ↔
        (r ∈ cur ∧ r.url ∉ prev.map Review.url)) ∧
    (∀ r : Review,
      r ∈ (ChangeDetector.generateDiffReport (some prev) (some cur)).changes.removed ↔
        (r ∈ prev ∧ r.url ∉ cur.map Review.url)) ∧
    (∀ r : Review, r.url ∉ prev.map Review.url →
      ((UkuleleReviewsScraper.generateDiffReport (some prev) (prev ++ [r])).changes.new = [r] ∧
       (UkuleleReviewsScraper.generateDiffReport (some prev) (prev ++ [r])).changes.removed = [] ∧
       (ChangeDetector.generateDiffReport (some prev) (some (prev ++ [r]))).changes.new = [r] ∧
       (ChangeDetector.generateDiffReport (some prev) (some (prev ++ [r]))).changes.removed = [])) ∧
    (∀ (A B : List Review) (r : Review), r.url ∉ (A ++ B).map Review.url →
      ((UkuleleReviewsScraper.generateDiffReport (some (A ++ r :: B)) (A ++ B)).changes.removed =
          [r.url] ∧
       (UkuleleReviewsScraper.generateDiffReport (some (A ++ r :: B)) (A ++ B)).changes.new = [] ∧
       (ChangeDetector.generateDiffReport (some (A ++ r :: B)) (some (A ++ B))).changes.removed =
          [r] ∧
       (ChangeDetector.generateDiffReport (some (A ++ r :: B)) (some (A ++ B))).changes.new =
          [])) := by
  refine ⟨?_, ?_, ?_, ?_, ?_, ?_⟩
  · intro r
    simp [UkuleleReviewsScraper.generateDiffReport, List.mem_filter, mem_insertionDedup]
  · intro u
    simp [UkuleleReviewsScraper.generateDiffReport, List.mem_filter, mem_insertionDedup]
  · intro r
    simp [ChangeDetector.generateDiffReport, List.mem_filter]
  · intro r
    simp [ChangeDetector.generateDiffReport, List.mem_filter]
  · intro r hr
    refine ⟨?_, ?_, ?_, ?_⟩
    · simp only [UkuleleReviewsScraper.generateDiffReport, Option.getD_some]
      exact filter_url_singleton prev [] r _
        (fun a ha => (mem_insertionDedup _ _).mpr (List.mem_map_of_mem _ ha))
        (by simp)
        (fun hmem => hr ((mem_insertionDedup _ _).mp hmem))
    · simp only [UkuleleReviewsScraper.generateDiffReport, Option.getD_some]
      refine filter_mem_eq_nil _ _ ?_
      intro u hu
      have humem : u ∈ prev.map Review.url := (mem_insertionDedup _ _).mp hu
      refine (mem_insertionDedup _ _).mpr ?_
      simpa using Or.inl humem
    · simp only [ChangeDetector.generateDiffReport, Option.getD_some]
      exact filter_url_singleton prev [] r _
        (fun a ha => List.mem_map_of_mem _ ha) (by simp) hr
    · simp only [ChangeDetector.generateDiffReport, Option.getD_some]
      refine filter_url_not_mem_eq_nil _ _ ?_
      intro a ha
      simpa using Or.inl (List.mem_map_of_mem Review.url ha)
  · intro A B r hr
    have hsplit : ∀ v : String, v ∈ (A ++ B).map Review.url ↔
        (v ∈ A.map Review.url ∨ v ∈ B.map Review.url) := by
      intro v; simp
    refine ⟨?_, ?_, ?_, ?_⟩
    · simp only [UkuleleReviewsScraper.generateDiffReport, Option.getD_some]
      refine filter_eq_singleton_of_nodup _ _ r.url (nodup_insertionDedup _)
        ((mem_insertionDedup _ _).mpr
          (List.mem_map_of_mem _ (List.mem_append_right A (List.mem_cons_self r B)))) ?_
      intro u hu
      have humem : u ∈ A.map Review.url ∨ u = r.url ∨ u ∈ B.map Review.url := by
        simpa using (mem_insertionDedup _ _).mp hu
      have hpredIff : (¬ (insertionDedup ((A ++ B).map Review.url)).contains u = true) ↔
          u ∉ (A ++ B).map Review.url := by
        simp [contains_eq_mem, mem_insertionDedup]
      simp only [decide_eq_true_eq]
      rw [hpredIff]
      constructor
      · intro hunot
        rcases humem with hA | h | hB
        · exact absurd ((hsplit u).mpr (Or.inl hA)) hunot
        · exact h
        · exact absurd ((hsplit u).mpr (Or.inr hB)) hunot
      · rintro rfl
        exact hr
    · simp only [UkuleleReviewsScraper.generateDiffReport, Option.getD_some]
      refine filter_url_not_mem_eq_nil _ _ ?_
      intro a ha
      refine (mem_insertionDedup _ _).mpr ?_
      rcases List.mem_append.mp ha with hA | hB
      · simpa using Or.inl (List.mem_map_of_mem Review.url hA)
      · simpa using Or.inr (Or.inr (List.mem_map_of_mem Review.url hB))
    · simp only [ChangeDetector.generateDiffReport, Option.getD_some]
      exact filter_url_singleton A B r _
        (fun a ha => (hsplit a.url).mpr (Or.inl (List.mem_map_of_mem _ ha)))
        (fun a ha => (hsplit a.url).mpr (Or.inr (List.mem_map_of_mem _ ha)))
        hr
    · simp only [ChangeDetector.generateDiffReport, Option.getD_some]
      refine filter_url_not_mem_eq_nil _ _ ?_
      intro a ha
      rcases List.mem_append.mp ha with hA | hB
      · simpa using Or.inl (List.mem_map_of_mem Review.url hA)
      · simpa using Or.inr (Or.inr (List.mem_map_of_mem Review.url hB))

theorem c5_diff_reports_by_url_witness :
    (UkuleleReviewsScraper.generateDiffReport
        (some [{ size := "soprano", brand := "KALA", model := "KA-S", priceRange := "<50",
                 url := "https://www.gotaukulele.com/a", rating := 9,
                 reviewDate := some "2021-03-01" }])
        ([{ size := "soprano", brand := "KALA", model := "KA-S", priceRange := "<50",
            url := "https://www.gotaukulele.com/a", rating := 9,
            reviewDate := some "2021-03-01" }] ++
         [{ size := "tenor", brand := "FLIGHT", model := "TUS35", priceRange := "50-100",
            url := "https://www.gotaukulele.com/b", rating := 8,
            reviewDate := none }])).changes.new =
      [{ size := "tenor", brand := "FLIGHT", model := "TUS35", priceRange := "50-100",
         url := "https://www.gotaukulele.com/b", rating := 8, reviewDate := none }] ∧
    (ChangeDetector.generateDiffReport
        (some ([] ++ { size := "soprano", brand := "KALA", model := "KA-S", priceRange := "<50",
                       url := "https://www.gotaukulele.com/a", rating := 9,
                       reviewDate := some "2021-03-01" } :: []))
        (some (([] : List Review) ++ []))).changes.removed =
      [{ size := "soprano", brand := "KALA", model := "KA-S", priceRange := "<50",
         url := "https://www.gotaukulele.com/a", rating := 9,
         reviewDate := some "2021-03-01" }] := by
  constructor
  · exact ((c5_diff_reports_by_url
      [{ size := "soprano", brand := "KALA", model := "KA-S", priceRange := "<50",
         url := "https://www.gotaukulele.com/a", rating := 9,
         reviewDate := some "2021-03-01" }] []).2.2.2.2.1
      { size := "tenor", brand := "FLIGHT", model := "TUS35", priceRange := "50-100",
        url := "https://www.gotaukulele.com/b", rating := 8, reviewDate := none }
      (by decide)).1
  · exact ((c5_diff_reports_by_url [] []).2.2.2.2.2 [] []
      { size := "soprano", brand := "KALA", model := "KA-S", priceRange := "<50",
        url := "https://www.gotaukulele.com/a", rating := 9,
        reviewDate := some "2021-03-01" }
      (by decide)).2.2.1
